import Mathlib

set_option maxRecDepth 10000

/-!
Verification of the ScriptPI neighbour-discovery programs.

The discovery Agent (`neighboragent.c`) and the discovery Client
(`neighborshow.c`) are shallowly embedded below: the global cache array
becomes an explicit list of entries threaded through a step function, the
network sends become an explicit list of output actions, and the blocking
receive loop of the Client becomes a recursion over a trace of loop events.
C `unsigned int` values are modelled as `Nat` (only equality against them is
ever used), C `int` and `time_t` as `Int` (the only arithmetic performed,
`hops - 1` under the guard `hops > 1`, cannot overflow a 32-bit int).
-/

namespace ScriptPI

/-! ## Agent data model (neighboragent.c, struct and globals) -/

/-- Wire request: `struct { unsigned int request_id; int hops; }`. -/
structure DiscoveryRequest where
  request_id : Nat
  hops : Int
  deriving DecidableEq

/-- One slot of the Agent cache:
`struct { unsigned int request_id; time_t timestamp; }`.
A slot with `request_id = 0` is free (the array is `memset` to zero at
startup and `add_to_cache` treats a zero id as an empty slot). -/
structure CacheEntry where
  request_id : Nat
  timestamp : Int
  deriving DecidableEq

/-- The Agent cache, `request_cache_entry_t cache[CACHE_SIZE]`, as a list. -/
abbrev Cache := List CacheEntry

/-- `#define CACHE_SIZE 100`. -/
def CACHE_SIZE : Nat := 100

/-- The cache right after `memset(cache, 0, sizeof(cache))` in `main`. -/
def initCache : Cache := List.replicate CACHE_SIZE ⟨0, 0⟩

/-- First phase of `add_to_cache`: the scan for a free slot
(`cache[i].request_id == 0`); returns the updated cache when a free slot
exists, `none` when the array is full. -/
def addFree (rid : Nat) (now : Int) : Cache → Option Cache
  | [] => none
  | e :: rest =>
    if e.request_id = 0 then some (⟨rid, now⟩ :: rest)
    else (addFree rid now rest).map (e :: ·)

/-- Second phase of `add_to_cache`: the scan for the oldest entry.  The
accumulator is `(oldest_index, oldest_time)` and `cur` is the index of the
head of the remaining list, exactly like the C loop starting at `i = 1`. -/
def oldestAux : List CacheEntry → Nat → Nat × Int → Nat × Int
  | [], _, acc => acc
  | e :: rest, cur, acc =>
    if e.timestamp < acc.2 then oldestAux rest (cur + 1) (cur, e.timestamp)
    else oldestAux rest (cur + 1) acc

/-- Index of the first entry with the minimal timestamp, as computed by the
second loop of `add_to_cache` (`oldest_index` / `oldest_time`). -/
def oldest_index : Cache → Nat
  | [] => 0
  | e :: rest => (oldestAux rest 1 (0, e.timestamp)).1

/-- `add_to_cache(request_id)` at time `now`: take the first free slot if
one exists, otherwise overwrite the entry with the oldest timestamp. -/
def add_to_cache (rid : Nat) (now : Int) (c : Cache) : Cache :=
  match addFree rid now c with
  | some c2 => c2
  | none => c.set (oldest_index c) ⟨rid, now⟩

/-- `is_in_cache(request_id)`: linear scan comparing `cache[i].request_id`
with the probed id.  Free slots (id 0) are not distinguished from occupied
entries. -/
def is_in_cache (rid : Nat) (c : Cache) : Bool :=
  c.any fun e => e.request_id == rid

/-! ## Agent receive step (the body of the `while (1)` loop in `main`) -/

/-- `sizeof(discovery_request_t)` = 8 bytes (two 4-byte fields). -/
def REQUEST_SIZE : Nat := 8

/-- One inbound datagram as the Agent sees it: the length reported by
`recvfrom`, the parsed request structure (meaningful only when the length
equals `REQUEST_SIZE`), and the sender address (abstract). -/
structure Datagram where
  size : Nat
  req : DiscoveryRequest
  sender : Nat
  deriving DecidableEq

/-- Observable network output of one loop iteration: the hostname reply
sent to the sender, and the relay of a decremented request
(`rebroadcast_request`). -/
inductive AgentAction where
  | reply (hostname : String) (dest : Nat)
  | relay (req : DiscoveryRequest)
  deriving DecidableEq

/-- One iteration of the Agent receive loop on datagram `d` at time `now`:
malformed sizes are dropped, duplicates are dropped, a first-seen request
is cached, answered with the local hostname, and relayed with `hops - 1`
when `hops > 1`. -/
def agent_step (host : String) (now : Int) (c : Cache) (d : Datagram) :
    Cache × List AgentAction :=
  if d.size = REQUEST_SIZE then
    if is_in_cache d.req.request_id c then (c, [])
    else
      let c2 := add_to_cache d.req.request_id now c
      if d.req.hops > 1 then
        (c2, [AgentAction.reply host d.sender,
              AgentAction.relay ⟨d.req.request_id, d.req.hops - 1⟩])
      else
        (c2, [AgentAction.reply host d.sender])
  else (c, [])

/-- The Agent loop over a finite prefix of deliveries, each tagged with the
`time(NULL)` value at which it is processed; returns the final cache and
the concatenated output actions. -/
def agent_steps (host : String) (c : Cache) :
    List (Int × Datagram) → Cache × List AgentAction
  | [] => (c, [])
  | (t, d) :: rest =>
    let p := agent_step host t c d
    let q := agent_steps host p.1 rest
    (q.1, p.2 ++ q.2)

/-- The requests carried by the relay actions of an output list. -/
def relayedReqs : List AgentAction → List DiscoveryRequest
  | [] => []
  | AgentAction.relay r :: rest => r :: relayedReqs rest
  | _ :: rest => relayedReqs rest

/-- The number of reply actions in an output list. -/
def numReplies : List AgentAction → Nat
  | [] => 0
  | AgentAction.reply _ _ :: rest => numReplies rest + 1
  | _ :: rest => numReplies rest

/-! ## Client embedding (neighborshow.c, select-loop variant) -/

/-- `#define MAX_HOSTS 100`: capacity of the `hosts` array. -/
def MAX_HOSTS : Nat := 100

/-- `#define RESPONSE_WAIT_TIME 3`: the collection window, in seconds. -/
def RESPONSE_WAIT_TIME : Int := 3

/-- Processing of one received reply payload in the Client loop: scan the
`hosts` array for an exact match; append when absent and the array is not
full, otherwise leave the array unchanged. -/
def addHost (hosts : List String) (buf : String) : List String :=
  if hosts.contains buf then hosts
  else if hosts.length < MAX_HOSTS then hosts ++ [buf]
  else hosts

/-- The list of hosts collected from a sequence of reply payloads,
starting from the empty array. -/
def collectReplies (replies : List String) : List String :=
  replies.foldl addHost []

/-- Modelled from the spec: append an identity unless already present, with
no capacity bound. -/
def dedupAdd (acc : List String) (s : String) : List String :=
  if acc.contains s then acc else acc ++ [s]

/-- Modelled from the spec: the reported result set "contains each distinct
identity exactly once, in insertion order of first sighting" — dedup by
first occurrence, with no capacity bound.  Used only to compare the code
path `collectReplies` against the spec sentence. -/
def dedupFirstSpec (l : List String) : List String :=
  l.foldl dedupAdd []

/-- What one iteration of the Client collection loop observes after its
deadline check: `select` returning an error, `select` timing out after one
polling granularity, or a datagram of `len` bytes whose payload reads as
string `s`. -/
inductive LoopEvent where
  | selectError
  | timeout
  | data (s : String) (len : Nat)
  deriving DecidableEq

/-- The Client collection loop over a trace of iterations.  Each trace
element carries the `time(NULL)` value at the top-of-loop deadline check
and the event the iteration then observes.  The result is `some (hosts,
exitTime)` when the loop exits within the trace (deadline elapsed, or
`select` error), `none` when the trace ends with the loop still running. -/
def clientLoop (start : Int) (hosts : List String) :
    List (Int × LoopEvent) → Option (List String × Int)
  | [] => none
  | (now, ev) :: rest =>
    if now - start > RESPONSE_WAIT_TIME then some (hosts, now)
    else
      match ev with
      | LoopEvent.selectError => some (hosts, now)
      | LoopEvent.timeout => clientLoop start hosts rest
      | LoopEvent.data s len =>
        if len > 0 then clientLoop start (addHost hosts s) rest
        else clientLoop start hosts rest

/-- The loop exited and its exit time is at most `b`. -/
def exitTimeLE : Option (List String × Int) → Int → Prop
  | none, _ => False
  | some r, b => r.2 ≤ b

/-! ## Client argument parsing (both client variants) -/

/-- Model of C `atoi` on a digit list: accumulate the leading decimal
digits, stop at the first non-digit. -/
def atoiDigits : List Char → Nat → Nat
  | [], acc => acc
  | ch :: rest, acc =>
    if '0' ≤ ch ∧ ch ≤ '9' then atoiDigits rest (acc * 10 + (ch.toNat - '0'.toNat))
    else acc

/-- C `isspace` characters skipped by `atoi`. -/
def isSpaceChar (ch : Char) : Bool :=
  ch == ' ' || ch == '\t' || ch == '\n' || ch == '\r' || ch == '\x0b' || ch == '\x0c'

/-- Model of C `atoi` (libc, not repository code): skip leading whitespace,
accept one optional sign, read the decimal digit prefix; result 0 when no
digits follow.  Overflow behaviour is not modelled (the claims only use
in-range values). -/
def atoi (s : String) : Int :=
  match s.data.dropWhile isSpaceChar with
  | '-' :: rest => -(atoiDigits rest 0 : Int)
  | '+' :: rest => (atoiDigits rest 0 : Int)
  | cs => (atoiDigits cs 0 : Int)

/-- Outcome of parsing the hop-count arguments: proceed with a hop budget
(`warned` records the "invalid, using 1" warning), or fail the invocation
with a usage error (`exit(EXIT_FAILURE)`) or the invalid-hop error
(`return 1` in the text-protocol client). -/
inductive HopParse where
  | ok (hops : Int) (warned : Bool)
  | usage
  | invalidHop
  deriving DecidableEq

/-- Argument handling of the select-loop client (`neighborshow.c` with the
binary request): `argc == 3 && strcmp(argv[1], "-hop") == 0` parses and
coerces values below 1 up to 1 with a warning; `argc == 1` defaults to 1;
anything else is a usage error.  `args` is `argv[1..]`. -/
def parseHopsShow : List String → HopParse
  | [] => HopParse.ok 1 false
  | [a1, a2] =>
    if a1 = "-hop" then
      if atoi a2 < 1 then HopParse.ok 1 true else HopParse.ok (atoi a2) false
    else HopParse.usage
  | _ => HopParse.usage

/-- Argument loop of the text-protocol client variant (`neighborshow.c`
sending "NEIGHBOR_DISCOVERY ..."): each `-hop` must be followed by a value,
and a value below 1 prints "Valeur de hop invalide." and returns 1. -/
def parseHopsTextAux (hop : Int) : List String → HopParse
  | [] => HopParse.ok hop false
  | a :: rest =>
    if a = "-hop" then
      match rest with
      | [] => HopParse.usage
      | v :: rest2 =>
        if atoi v < 1 then HopParse.invalidHop
        else parseHopsTextAux (atoi v) rest2
    else HopParse.usage

/-- Entry point of the text-protocol client argument loop (`hop = 1` by
default). -/
def parseHopsText (args : List String) : HopParse :=
  parseHopsTextAux 1 args

/-- No two occupied slots hold the same id: across every ordered pair of
slots, the earlier one is free or the ids differ. -/
def NoDupIds (c : Cache) : Prop :=
  List.Pairwise (fun a b => a.request_id = 0 ∨ a.request_id ≠ b.request_id) c

/-! ## Cache lemmas -/

lemma addFree_some_set (rid : Nat) (t : Int) :
    ∀ (c : Cache) {c2 : Cache}, addFree rid t c = some c2 →
      ∃ j, j < c.length ∧ c2 = c.set j ⟨rid, t⟩ := by
  intro c
  induction c with
  | nil => intro c2 h; simp [addFree] at h
  | cons e rest ih =>
    intro c2 h
    simp only [addFree] at h
    by_cases he : e.request_id = 0
    · rw [if_pos he] at h
      refine ⟨0, by simp, ?_⟩
      simp [← Option.some_inj.mp h]
    · rw [if_neg he, Option.map_eq_some'] at h
      obtain ⟨a, ha, hc2⟩ := h
      obtain ⟨j, hj, rfl⟩ := ih ha
      exact ⟨j + 1, by simpa using Nat.succ_lt_succ hj, by simp [← hc2]⟩

lemma addFree_none_iff (rid : Nat) (t : Int) :
    ∀ c : Cache, addFree rid t c = none ↔ ∀ e ∈ c, e.request_id ≠ 0 := by
  intro c
  induction c with
  | nil => simp [addFree]
  | cons e rest ih =>
    simp only [addFree]
    by_cases he : e.request_id = 0
    · simp [he]
    · simp [he, ih]

lemma is_in_cache_iff (rid : Nat) (c : Cache) :
    is_in_cache rid c = true ↔ ∃ e ∈ c, e.request_id = rid := by
  simp [is_in_cache, List.any_eq_true]

lemma length_add_to_cache (rid : Nat) (t : Int) (c : Cache) :
    (add_to_cache rid t c).length = c.length := by
  unfold add_to_cache
  cases h : addFree rid t c with
  | none => simp
  | some c2 =>
    obtain ⟨j, _, rfl⟩ := addFree_some_set rid t c h
    simp

lemma oldestAux_spec :
    ∀ (l : List CacheEntry) (cur bi : Nat) (bt : Int),
      ((oldestAux l cur (bi, bt)).2 ≤ bt ∧
        ∀ x ∈ l, (oldestAux l cur (bi, bt)).2 ≤ x.timestamp) ∧
      (oldestAux l cur (bi, bt) = (bi, bt) ∨
        ∃ k, k < l.length ∧ (oldestAux l cur (bi, bt)).1 = cur + k ∧
          (oldestAux l cur (bi, bt)).2 = (l.getD k ⟨0, 0⟩).timestamp) := by
  intro l
  induction l with
  | nil => exact fun cur bi bt => ⟨⟨le_refl _, by simp⟩, Or.inl rfl⟩
  | cons e rest ih =>
    intro cur bi bt
    simp only [oldestAux]
    by_cases hts : e.timestamp < bt
    · rw [if_pos hts]
      obtain ⟨⟨h1, h2⟩, h3⟩ := ih (cur + 1) cur e.timestamp
      refine ⟨⟨le_trans h1 (le_of_lt hts), ?_⟩, ?_⟩
      · intro x hx
        rcases List.mem_cons.mp hx with rfl | hx
        · exact h1
        · exact h2 x hx
      · rcases h3 with heq | ⟨k, hk, hk1, hk2⟩
        · exact Or.inr ⟨0, by simp, by rw [heq]; simp, by rw [heq]; simp⟩
        · refine Or.inr ⟨k + 1, by simpa using Nat.succ_lt_succ hk, ?_, ?_⟩
          · rw [hk1]; omega
          · rw [hk2, List.getD_cons_succ]
    · rw [if_neg hts]
      push_neg at hts
      obtain ⟨⟨h1, h2⟩, h3⟩ := ih (cur + 1) bi bt
      refine ⟨⟨h1, ?_⟩, ?_⟩
      · intro x hx
        rcases List.mem_cons.mp hx with rfl | hx
        · exact le_trans h1 hts
        · exact h2 x hx
      · rcases h3 with heq | ⟨k, hk, hk1, hk2⟩
        · exact Or.inl heq
        · refine Or.inr ⟨k + 1, by simpa using Nat.succ_lt_succ hk, ?_, ?_⟩
          · rw [hk1]; omega
          · rw [hk2, List.getD_cons_succ]

lemma oldest_index_lt (c : Cache) (hc : c ≠ []) : oldest_index c < c.length := by
  cases c with
  | nil => exact absurd rfl hc
  | cons e rest =>
    simp only [oldest_index]
    obtain ⟨_, h3⟩ := oldestAux_spec rest 1 0 e.timestamp
    rcases h3 with heq | ⟨k, hk, hk1, _⟩
    · rw [heq]; simp
    · rw [hk1]; simp only [List.length_cons]; omega

lemma oldest_index_min (c : Cache) (hc : c ≠ []) :
    ∀ x ∈ c, (c.getD (oldest_index c) ⟨0, 0⟩).timestamp ≤ x.timestamp := by
  cases c with
  | nil => exact absurd rfl hc
  | cons e rest =>
    obtain ⟨⟨h1, h2⟩, h3⟩ := oldestAux_spec rest 1 0 e.timestamp
    have hget : ((e :: rest).getD (oldest_index (e :: rest)) ⟨0, 0⟩).timestamp =
        (oldestAux rest 1 (0, e.timestamp)).2 := by
      simp only [oldest_index]
      rcases h3 with heq | ⟨k, hk, hk1, hk2⟩
      · rw [heq]; simp
      · rw [hk1, hk2, Nat.add_comm 1 k, List.getD_cons_succ]
    intro x hx
    rw [hget]
    rcases List.mem_cons.mp hx with rfl | hx
    · exact h1
    · exact h2 x hx

lemma add_to_cache_full (rid : Nat) (t : Int) (c : Cache)
    (h : ∀ e ∈ c, e.request_id ≠ 0) :
    add_to_cache rid t c = c.set (oldest_index c) ⟨rid, t⟩ := by
  unfold add_to_cache
  rw [(addFree_none_iff rid t c).mpr h]

lemma is_in_cache_add_self (rid : Nat) (t : Int) (c : Cache) (hc : 0 < c.length) :
    is_in_cache rid (add_to_cache rid t c) = true := by
  rw [is_in_cache_iff]
  unfold add_to_cache
  cases h : addFree rid t c with
  | none =>
    refine ⟨⟨rid, t⟩, ?_, rfl⟩
    exact List.mem_set c _ (oldest_index_lt c (List.length_pos.mp hc)) _
  | some c2 =>
    obtain ⟨j, hj, rfl⟩ := addFree_some_set rid t c h
    exact ⟨⟨rid, t⟩, List.mem_set c j hj _, rfl⟩

lemma is_in_cache_initCache (rid : Nat) (h : rid ≠ 0) :
    is_in_cache rid initCache = false := by
  rw [← Bool.not_eq_true, is_in_cache_iff]
  rintro ⟨e, he, hid⟩
  rw [List.eq_of_mem_replicate he] at hid
  exact h hid.symm

/-! ## Agent step lemmas -/

lemma agent_step_malformed (host : String) (t : Int) (c : Cache) (d : Datagram)
    (hsize : d.size ≠ REQUEST_SIZE) : agent_step host t c d = (c, []) := by
  simp [agent_step, hsize]

lemma agent_step_dup (host : String) (t : Int) (c : Cache) (d : Datagram)
    (hsize : d.size = REQUEST_SIZE) (hdup : is_in_cache d.req.request_id c = true) :
    agent_step host t c d = (c, []) := by
  simp [agent_step, hsize, hdup]

lemma agent_step_new (host : String) (t : Int) (c : Cache) (d : Datagram)
    (hsize : d.size = REQUEST_SIZE) (hnew : is_in_cache d.req.request_id c = false) :
    agent_step host t c d =
      (add_to_cache d.req.request_id t c,
        if d.req.hops > 1 then
          [AgentAction.reply host d.sender,
           AgentAction.relay ⟨d.req.request_id, d.req.hops - 1⟩]
        else [AgentAction.reply host d.sender]) := by
  by_cases h3 : d.req.hops > 1 <;> simp [agent_step, hsize, hnew, h3]

lemma agent_steps_cons (host : String) (c : Cache) (t : Int) (d : Datagram)
    (rest : List (Int × Datagram)) :
    agent_steps host c ((t, d) :: rest) =
      ((agent_steps host (agent_step host t c d).1 rest).1,
       (agent_step host t c d).2 ++ (agent_steps host (agent_step host t c d).1 rest).2) :=
  rfl

lemma agent_steps_all_dup (host : String) (c : Cache) (rid : Nat)
    (hin : is_in_cache rid c = true) :
    ∀ rest : List (Int × Datagram),
      (∀ p ∈ rest, (p : Int × Datagram).2.size = REQUEST_SIZE ∧ p.2.req.request_id = rid) →
      agent_steps host c rest = (c, []) := by
  intro rest
  induction rest with
  | nil => intro _; rfl
  | cons p rest ih =>
    intro hall
    obtain ⟨t, d⟩ := p
    obtain ⟨hsize, hid⟩ := hall (t, d) (List.mem_cons_self _ _)
    have hstep : agent_step host t c d = (c, []) :=
      agent_step_dup host t c d hsize (by rw [hid]; exact hin)
    rw [agent_steps_cons, hstep]
    simp [ih fun q hq => hall q (List.mem_cons_of_mem _ hq)]

lemma length_agent_step (host : String) (t : Int) (c : Cache) (d : Datagram) :
    ((agent_step host t c d).1).length = c.length := by
  by_cases h1 : d.size = REQUEST_SIZE
  · by_cases h2 : is_in_cache d.req.request_id c = true
    · rw [agent_step_dup host t c d h1 h2]
    · rw [agent_step_new host t c d h1 (Bool.not_eq_true _ ▸ h2)]
      exact length_add_to_cache _ _ _
  · rw [agent_step_malformed host t c d h1]

lemma length_agent_steps (host : String) :
    ∀ (ds : List (Int × Datagram)) (c : Cache),
      ((agent_steps host c ds).1).length = c.length := by
  intro ds
  induction ds with
  | nil => intro c; rfl
  | cons p rest ih =>
    intro c
    obtain ⟨t, d⟩ := p
    rw [agent_steps_cons]
    rw [show ((_, _ ++ _).1 : Cache) = (agent_steps host (agent_step host t c d).1 rest).1
      from rfl]
    rw [ih]
    exact length_agent_step host t c d

/-! ## No-duplicate-ids invariant -/

lemma noDupIds_set (x : CacheEntry) :
    ∀ (c : Cache) (j : Nat), NoDupIds c →
      (∀ e ∈ c, e.request_id ≠ x.request_id) → NoDupIds (c.set j x) := by
  intro c
  induction c with
  | nil => intro j _ _; simp [NoDupIds]
  | cons a rest ih =>
    intro j hc hx
    rw [NoDupIds, List.pairwise_cons] at hc
    cases j with
    | zero =>
      rw [List.set_cons_zero, NoDupIds, List.pairwise_cons]
      refine ⟨fun e he => Or.inr ?_, hc.2⟩
      exact fun heq => hx e (List.mem_cons_of_mem _ he) heq.symm
    | succ n =>
      rw [List.set_cons_succ, NoDupIds, List.pairwise_cons]
      constructor
      · intro e he
        rcases List.mem_or_eq_of_mem_set he with he2 | rfl
        · exact hc.1 e he2
        · exact Or.inr (hx a (List.mem_cons_self _ _))
      · exact ih n hc.2 fun e he => hx e (List.mem_cons_of_mem _ he)

lemma noDupIds_add (rid : Nat) (t : Int) (c : Cache)
    (hc : NoDupIds c) (hnew : is_in_cache rid c = false) :
    NoDupIds (add_to_cache rid t c) := by
  have hx : ∀ e ∈ c, e.request_id ≠ rid := by
    intro e he heq
    rw [← Bool.not_eq_true, is_in_cache_iff] at hnew
    exact hnew ⟨e, he, heq⟩
  unfold add_to_cache
  cases h : addFree rid t c with
  | none => exact noDupIds_set _ c _ hc hx
  | some c2 =>
    obtain ⟨j, _, rfl⟩ := addFree_some_set rid t c h
    exact noDupIds_set _ c j hc hx

lemma noDupIds_step (host : String) (t : Int) (c : Cache) (d : Datagram)
    (hc : NoDupIds c) : NoDupIds (agent_step host t c d).1 := by
  by_cases h1 : d.size = REQUEST_SIZE
  · by_cases h2 : is_in_cache d.req.request_id c = true
    · rw [agent_step_dup host t c d h1 h2]; exact hc
    · rw [agent_step_new host t c d h1 (Bool.not_eq_true _ ▸ h2)]
      exact noDupIds_add _ _ _ hc (Bool.not_eq_true _ ▸ h2)
  · rw [agent_step_malformed host t c d h1]; exact hc

lemma noDupIds_initCache : NoDupIds initCache := by
  rw [NoDupIds, initCache, List.pairwise_replicate]
  exact Or.inr (Or.inl rfl)

lemma noDupIds_steps (host : String) :
    ∀ (ds : List (Int × Datagram)) (c : Cache), NoDupIds c →
      NoDupIds (agent_steps host c ds).1 := by
  intro ds
  induction ds with
  | nil => intro c hc; exact hc
  | cons p rest ih =>
    intro c hc
    obtain ⟨t, d⟩ := p
    rw [agent_steps_cons]
    exact ih _ (noDupIds_step host t c d hc)

/-! ## Client dedup lemmas -/

lemma mem_foldl_dedupAdd :
    ∀ (l acc : List String) (s : String),
      s ∈ l.foldl dedupAdd acc ↔ s ∈ acc ∨ s ∈ l := by
  intro l
  induction l with
  | nil => simp
  | cons b t ih =>
    intro acc s
    rw [List.foldl_cons, ih]
    unfold dedupAdd
    by_cases hb : acc.contains b = true
    · rw [if_pos hb]
      have hbm : b ∈ acc := by simpa using hb
      simp only [List.mem_cons]
      constructor
      · rintro (h | h)
        · exact Or.inl h
        · exact Or.inr (Or.inr h)
      · rintro (h | rfl | h)
        · exact Or.inl h
        · exact Or.inl hbm
        · exact Or.inr h
    · rw [if_neg hb]
      simp only [List.mem_append, List.mem_singleton, List.mem_cons]
      tauto

lemma nodup_foldl_dedupAdd :
    ∀ (l acc : List String), acc.Nodup → (l.foldl dedupAdd acc).Nodup := by
  intro l
  induction l with
  | nil => intro acc h; exact h
  | cons b t ih =>
    intro acc h
    rw [List.foldl_cons]
    refine ih _ ?_
    unfold dedupAdd
    by_cases hb : acc.contains b = true
    · rw [if_pos hb]; exact h
    · rw [if_neg hb]
      rw [List.nodup_append]
      refine ⟨h, List.nodup_singleton b, ?_⟩
      intro x hx hx1
      rw [List.mem_singleton] at hx1
      subst hx1
      have hbm : x ∉ acc := by simpa using hb
      exact hbm hx

lemma nodup_foldl_addHost :
    ∀ (l acc : List String), acc.Nodup → (l.foldl addHost acc).Nodup := by
  intro l
  induction l with
  | nil => intro acc h; exact h
  | cons b t ih =>
    intro acc h
    rw [List.foldl_cons]
    refine ih _ ?_
    unfold addHost
    by_cases hb : acc.contains b = true
    · rw [if_pos hb]; exact h
    · rw [if_neg hb]
      by_cases hlen : acc.length < MAX_HOSTS
      · rw [if_pos hlen, List.nodup_append]
        refine ⟨h, List.nodup_singleton b, ?_⟩
        intro x hx hx1
        rw [List.mem_singleton] at hx1
        subst hx1
        have hbm : x ∉ acc := by simpa using hb
        exact hbm hx
      · rw [if_neg hlen]; exact h

lemma length_le_foldl_dedupAdd :
    ∀ (l acc : List String), acc.length ≤ (l.foldl dedupAdd acc).length := by
  intro l
  induction l with
  | nil => intro acc; exact le_refl _
  | cons b t ih =>
    intro acc
    rw [List.foldl_cons]
    refine le_trans ?_ (ih (dedupAdd acc b))
    unfold dedupAdd
    by_cases hb : acc.contains b = true
    · rw [if_pos hb]
    · rw [if_neg hb]; simp

lemma foldl_addHost_eq_dedupAdd :
    ∀ (l acc : List String), (l.foldl dedupAdd acc).length ≤ MAX_HOSTS →
      l.foldl addHost acc = l.foldl dedupAdd acc := by
  intro l
  induction l with
  | nil => intro acc _; rfl
  | cons b t ih =>
    intro acc hcap
    rw [List.foldl_cons] at hcap
    rw [List.foldl_cons, List.foldl_cons]
    by_cases hb : acc.contains b = true
    · have hd : dedupAdd acc b = acc := by unfold dedupAdd; rw [if_pos hb]
      have ha : addHost acc b = acc := by unfold addHost; rw [if_pos hb]
      rw [hd] at hcap
      rw [ha, hd]
      exact ih acc hcap
    · have hd : dedupAdd acc b = acc ++ [b] := by unfold dedupAdd; rw [if_neg hb]
      rw [hd] at hcap
      have hlen : acc.length < MAX_HOSTS := by
        have h1 := length_le_foldl_dedupAdd t (acc ++ [b])
        rw [List.length_append, List.length_singleton] at h1
        omega
      have ha : addHost acc b = acc ++ [b] := by
        unfold addHost; rw [if_neg hb, if_pos hlen]
      rw [ha, hd]
      exact ih _ hcap

lemma length_foldl_addHost_le :
    ∀ (l acc : List String), acc.length ≤ MAX_HOSTS →
      (l.foldl addHost acc).length ≤ MAX_HOSTS := by
  intro l
  induction l with
  | nil => intro acc h; exact h
  | cons b t ih =>
    intro acc h
    rw [List.foldl_cons]
    refine ih _ ?_
    unfold addHost
    by_cases hb : acc.contains b = true
    · rw [if_pos hb]; exact h
    · rw [if_neg hb]
      by_cases hlen : acc.length < MAX_HOSTS
      · rw [if_pos hlen]; simp; omega
      · rw [if_neg hlen]; exact h

lemma addHost_full (hosts : List String) (s : String)
    (hfull : hosts.length = MAX_HOSTS) : addHost hosts s = hosts := by
  unfold addHost
  by_cases hb : hosts.contains s = true
  · rw [if_pos hb]
  · rw [if_neg hb, if_neg (by omega)]

/-! ## Client loop exit lemma -/

lemma exitTimeLE_some (r : List String × Int) (b : Int) (h : r.2 ≤ b) :
    exitTimeLE (some r) b := h

lemma clientLoop_deadline (start : Int) (hosts : List String) (now : Int)
    (ev : LoopEvent) (rest : List (Int × LoopEvent))
    (hgt : now - start > RESPONSE_WAIT_TIME) :
    clientLoop start hosts ((now, ev) :: rest) = some (hosts, now) := by
  cases ev <;> simp [clientLoop, hgt]

lemma clientLoop_exits (start : Int) :
    ∀ (trace : List (Int × LoopEvent)) (hosts : List String),
      trace.Chain' (fun a b => b.1 ≤ a.1 + 1) →
      (∃ p ∈ trace, start + RESPONSE_WAIT_TIME < p.1) →
      (∀ p ∈ trace.head?, (p : Int × LoopEvent).1 ≤ start + RESPONSE_WAIT_TIME + 1) →
      exitTimeLE (clientLoop start hosts trace) (start + RESPONSE_WAIT_TIME + 1) := by
  intro trace
  induction trace with
  | nil =>
    rintro hosts _ ⟨p, hp, _⟩ _
    exact absurd hp (List.not_mem_nil p)
  | cons q rest ih =>
    rintro hosts hchain ⟨p, hp, hpgt⟩ hhead
    obtain ⟨now, ev⟩ := q
    have hnow : now ≤ start + RESPONSE_WAIT_TIME + 1 :=
      hhead (now, ev) (Option.mem_def.mpr rfl)
    by_cases hgt : now - start > RESPONSE_WAIT_TIME
    · rw [clientLoop_deadline start hosts now ev rest hgt]
      exact exitTimeLE_some _ _ hnow
    · have hle : now - start ≤ RESPONSE_WAIT_TIME := not_lt.mp hgt
      have hp_rest : p ∈ rest := by
        rcases List.mem_cons.mp hp with rfl | h
        · exfalso; linarith
        · exact h
      have hchain_rest : rest.Chain' (fun a b => b.1 ≤ a.1 + 1) := hchain.tail
      have hhead_rest : ∀ r ∈ rest.head?,
          (r : Int × LoopEvent).1 ≤ start + RESPONSE_WAIT_TIME + 1 := by
        intro r hr
        have h2 := (List.chain'_cons'.mp hchain).1 r hr
        linarith
      have hex : ∃ r ∈ rest, start + RESPONSE_WAIT_TIME < r.1 := ⟨p, hp_rest, hpgt⟩
      cases ev with
      | selectError =>
        have heq : clientLoop start hosts ((now, LoopEvent.selectError) :: rest) =
            some (hosts, now) := by simp [clientLoop, hgt]
        rw [heq]
        exact exitTimeLE_some _ _ hnow
      | timeout =>
        have heq : clientLoop start hosts ((now, LoopEvent.timeout) :: rest) =
            clientLoop start hosts rest := by simp [clientLoop, hgt]
        rw [heq]
        exact ih hosts hchain_rest hex hhead_rest
      | data s len =>
        by_cases hlen : len > 0
        · have heq : clientLoop start hosts ((now, LoopEvent.data s len) :: rest) =
              clientLoop start (addHost hosts s) rest := by simp [clientLoop, hgt, hlen]
          rw [heq]
          exact ih (addHost hosts s) hchain_rest hex hhead_rest
        · have heq : clientLoop start hosts ((now, LoopEvent.data s len) :: rest) =
              clientLoop start hosts rest := by simp [clientLoop, hgt, hlen]
          rw [heq]
          exact ih hosts hchain_rest hex hhead_rest

/-! ## Claim theorems -/

/-- C1 counterexample: a well-formed request with `request_id = 0`
delivered once (N = 1) to a freshly started Agent produces zero replies,
not exactly one — the zeroed cache makes id 0 look already seen. -/
theorem c1_zero_id_no_reply_counterexample :
    (agent_steps "hostA" initCache
        [((0 : Int), (⟨REQUEST_SIZE, ⟨0, 3⟩, 7⟩ : Datagram))]).2 = [] ∧
    numReplies (agent_steps "hostA" initCache
        [((0 : Int), (⟨REQUEST_SIZE, ⟨0, 3⟩, 7⟩ : Datagram))]).2 = 0 := by
  decide

/-- C1 (amended: nonzero `request_id`): N ≥ 1 well-formed deliveries of the
same nonzero `request_id` to a fresh Agent yield exactly one reply, sent to
the first delivery's sender, and at most one relay (issued only when the
first delivery's hop budget exceeds 1); the deliveries after the first
change neither the cache nor the output. -/
theorem c1_idempotent_suppression_amended (host : String) (rid : Nat)
    (hrid : rid ≠ 0) (t0 : Int) (d0 : Datagram) (rest : List (Int × Datagram))
    (hsize0 : d0.size = REQUEST_SIZE) (hid0 : d0.req.request_id = rid)
    (hrest : ∀ p ∈ rest,
      (p : Int × Datagram).2.size = REQUEST_SIZE ∧ p.2.req.request_id = rid) :
    (agent_steps host initCache ((t0, d0) :: rest)).2 =
      (if d0.req.hops > 1 then
        [AgentAction.reply host d0.sender,
         AgentAction.relay ⟨rid, d0.req.hops - 1⟩]
      else [AgentAction.reply host d0.sender]) ∧
    (agent_steps host initCache ((t0, d0) :: rest)).1 =
      (agent_step host t0 initCache d0).1 := by
  have hnew : is_in_cache d0.req.request_id initCache = false := by
    rw [hid0]; exact is_in_cache_initCache rid hrid
  have hstep := agent_step_new host t0 initCache d0 hsize0 hnew
  have hin : is_in_cache rid (agent_step host t0 initCache d0).1 = true := by
    rw [hstep]
    simp only [hid0]
    exact is_in_cache_add_self rid t0 initCache (by simp [initCache, CACHE_SIZE])
  have hdup := agent_steps_all_dup host (agent_step host t0 initCache d0).1 rid hin rest hrest
  rw [agent_steps_cons, hdup]
  refine ⟨?_, rfl⟩
  rw [hstep]
  simp [hid0]

/-- C1 witness: two deliveries of request 42 with hop budget 3 give one
reply to the first sender and one relay with hop budget 2. -/
theorem c1_idempotent_suppression_witness :
    (agent_steps "hostA" initCache
        [((0 : Int), (⟨REQUEST_SIZE, ⟨42, 3⟩, 7⟩ : Datagram)),
         ((1 : Int), (⟨REQUEST_SIZE, ⟨42, 3⟩, 9⟩ : Datagram))]).2 =
      (if (3 : Int) > 1 then
        [AgentAction.reply "hostA" 7, AgentAction.relay ⟨42, (3 : Int) - 1⟩]
      else [AgentAction.reply "hostA" 7]) ∧
    (agent_steps "hostA" initCache
        [((0 : Int), (⟨REQUEST_SIZE, ⟨42, 3⟩, 7⟩ : Datagram)),
         ((1 : Int), (⟨REQUEST_SIZE, ⟨42, 3⟩, 9⟩ : Datagram))]).1 =
      (agent_step "hostA" 0 initCache ⟨REQUEST_SIZE, ⟨42, 3⟩, 7⟩).1 :=
  c1_idempotent_suppression_amended "hostA" 42 (by decide) 0
    ⟨REQUEST_SIZE, ⟨42, 3⟩, 7⟩ [((1 : Int), (⟨REQUEST_SIZE, ⟨42, 3⟩, 9⟩ : Datagram))]
    rfl rfl (by decide)

/-- C2: on a first-seen well-formed request, a relay is issued exactly when
the received hop budget is strictly greater than 1, the relayed copy
carries the received budget minus 1, and every relayed hop budget is
strictly below the received one. -/
theorem c2_relay_iff_hops_gt_one (host : String) (t : Int) (c : Cache)
    (d : Datagram) (hsize : d.size = REQUEST_SIZE)
    (hnew : is_in_cache d.req.request_id c = false) :
    relayedReqs (agent_step host t c d).2 =
      (if d.req.hops > 1 then [⟨d.req.request_id, d.req.hops - 1⟩] else []) ∧
    (relayedReqs (agent_step host t c d).2).all
      (fun r => decide (r.hops < d.req.hops)) = true := by
  have hstep := agent_step_new host t c d hsize hnew
  by_cases h3 : d.req.hops > 1
  · rw [hstep, if_pos h3, if_pos h3]
    refine ⟨rfl, ?_⟩
    simp [relayedReqs]
  · rw [hstep, if_neg h3, if_neg h3]
    exact ⟨rfl, rfl⟩

/-- C2 witness: request 5 with hop budget 3 on a fresh cache relays exactly
one copy with hop budget 2. -/
theorem c2_relay_iff_hops_gt_one_witness :
    relayedReqs (agent_step "hostA" 0 initCache ⟨REQUEST_SIZE, ⟨5, 3⟩, 2⟩).2 =
      (if (3 : Int) > 1 then [⟨5, (3 : Int) - 1⟩] else []) ∧
    (relayedReqs (agent_step "hostA" 0 initCache ⟨REQUEST_SIZE, ⟨5, 3⟩, 2⟩).2).all
      (fun r => decide (r.hops < (3 : Int))) = true :=
  c2_relay_iff_hops_gt_one "hostA" 0 initCache ⟨REQUEST_SIZE, ⟨5, 3⟩, 2⟩
    rfl (by decide)

/-- C3: the cache length never changes under any run of the loop (bounded
memory at its fixed capacity); an insertion into a full cache overwrites
exactly the slot of index `oldest_index`, which carries a minimal
timestamp; and a duplicate delivery (pure lookup) leaves the cache — hence
every timestamp — unchanged. -/
theorem c3_cache_eviction_bound (host : String) (ds : List (Int × Datagram))
    (rid : Nat) (t : Int) (c : Cache)
    (hfull : ∀ e ∈ c, e.request_id ≠ 0) (hne : c ≠ [])
    (host2 : String) (t2 : Int) (d : Datagram)
    (hsize : d.size = REQUEST_SIZE) (hdup : is_in_cache d.req.request_id c = true) :
    ((agent_steps host initCache ds).1).length = CACHE_SIZE ∧
    add_to_cache rid t c = c.set (oldest_index c) ⟨rid, t⟩ ∧
    oldest_index c < c.length ∧
    c.all (fun e =>
      decide ((c.getD (oldest_index c) ⟨0, 0⟩).timestamp ≤ e.timestamp)) = true ∧
    (agent_step host2 t2 c d).1 = c := by
  refine ⟨?_, add_to_cache_full rid t c hfull, oldest_index_lt c hne, ?_, ?_⟩
  · rw [length_agent_steps host ds initCache]
    simp [initCache]
  · rw [List.all_eq_true]
    intro e he
    exact decide_eq_true (oldest_index_min c hne e he)
  · rw [agent_step_dup host2 t2 c d hsize hdup]

/-- C3 witness: on a full 100-entry cache with timestamps 0..99, inserting
id 200 overwrites index 0 (the oldest), and a duplicate of id 1 leaves the
cache unchanged. -/
theorem c3_cache_eviction_bound_witness :
    add_to_cache 200 50 ((List.range 100).map fun i => (⟨i + 1, (i : Int)⟩ : CacheEntry)) =
      ((List.range 100).map fun i => (⟨i + 1, (i : Int)⟩ : CacheEntry)).set
        (oldest_index ((List.range 100).map fun i => (⟨i + 1, (i : Int)⟩ : CacheEntry)))
        ⟨200, 50⟩ ∧
    ((agent_steps "hostA" initCache [((0 : Int), (⟨REQUEST_SIZE, ⟨7, 1⟩, 1⟩ : Datagram))]).1).length =
      CACHE_SIZE ∧
    (agent_step "hostA" 0 ((List.range 100).map fun i => (⟨i + 1, (i : Int)⟩ : CacheEntry))
        ⟨REQUEST_SIZE, ⟨1, 5⟩, 0⟩).1 =
      (List.range 100).map fun i => (⟨i + 1, (i : Int)⟩ : CacheEntry) := by
  have h := c3_cache_eviction_bound "hostA" [((0 : Int), (⟨REQUEST_SIZE, ⟨7, 1⟩, 1⟩ : Datagram))]
    200 50 ((List.range 100).map fun i => (⟨i + 1, (i : Int)⟩ : CacheEntry))
    (by decide) (by decide) "hostA" 0 ⟨REQUEST_SIZE, ⟨1, 5⟩, 0⟩ rfl (by decide)
  exact ⟨h.2.1, h.1, h.2.2.2.2⟩

/-- C4: after any sequence of receive-loop steps from the empty cache, no
two occupied slots (nonzero ids) hold the same `request_id`. -/
theorem c4_no_duplicate_ids (host : String) (ds : List (Int × Datagram)) :
    NoDupIds (agent_steps host initCache ds).1 :=
  noDupIds_steps host ds initCache noDupIds_initCache

/-- C5: a well-formed request with `request_id = 0` arriving at a freshly
started Agent is classified as already seen: no reply, no relay, no cache
change, for every hop budget and sender. -/
theorem c5_zero_request_id_always_seen (host : String) (t : Int)
    (hops : Int) (sender : Nat) :
    agent_step host t initCache ⟨REQUEST_SIZE, ⟨0, hops⟩, sender⟩ =
      (initCache, []) := by
  have hzero : is_in_cache 0 initCache = true := by decide
  exact agent_step_dup host t initCache ⟨REQUEST_SIZE, ⟨0, hops⟩, sender⟩ rfl hzero

/-- C8: a malformed (wrong-size) or duplicate datagram produces no reply,
no relay and no cache change, and the loop goes on processing the
remaining deliveries exactly as if the datagram had not arrived. -/
theorem c8_malformed_or_duplicate_silent (host : String) (t : Int)
    (c : Cache) (d : Datagram) (rest : List (Int × Datagram))
    (h : d.size ≠ REQUEST_SIZE ∨ is_in_cache d.req.request_id c = true) :
    agent_step host t c d = (c, []) ∧
    agent_steps host c ((t, d) :: rest) = agent_steps host c rest := by
  have hstep : agent_step host t c d = (c, []) := by
    rcases h with h | h
    · exact agent_step_malformed host t c d h
    · by_cases hs : d.size = REQUEST_SIZE
      · exact agent_step_dup host t c d hs h
      · exact agent_step_malformed host t c d hs
  refine ⟨hstep, ?_⟩
  rw [agent_steps_cons, hstep]
  simp

/-- C8 witness: a 4-byte datagram on a fresh Agent is dropped silently and
does not disturb the processing of the rest of the trace. -/
theorem c8_malformed_or_duplicate_silent_witness :
    agent_step "hostA" 0 initCache ⟨4, ⟨1, 1⟩, 0⟩ = (initCache, []) ∧
    agent_steps "hostA" initCache
        [((0 : Int), (⟨4, ⟨1, 1⟩, 0⟩ : Datagram)),
         ((1 : Int), (⟨REQUEST_SIZE, ⟨9, 1⟩, 3⟩ : Datagram))] =
      agent_steps "hostA" initCache [((1 : Int), (⟨REQUEST_SIZE, ⟨9, 1⟩, 3⟩ : Datagram))] :=
  c8_malformed_or_duplicate_silent "hostA" 0 initCache ⟨4, ⟨1, 1⟩, 0⟩
    [((1 : Int), (⟨REQUEST_SIZE, ⟨9, 1⟩, 3⟩ : Datagram))] (by decide)

/-- C6 counterexample: with 101 distinct identities in one window, identity
"100" is received but missing from the reported set (the 100-entry cap
drops it), so the result does not contain every distinct identity. -/
theorem c6_client_dedup_counterexample :
    "100" ∈ (List.range 101).map (fun n => toString n) ∧
    "100" ∉ collectReplies ((List.range 101).map (fun n => toString n)) := by
  decide

/-- C6 (amended: at most 100 distinct identities): when the distinct
identities of the window fit the 100-entry table, the reported set equals
the first-occurrence dedup of the reply sequence — each distinct identity
exactly once, in insertion order of first sighting. -/
theorem c6_client_dedup_amended (replies : List String)
    (h : (dedupFirstSpec replies).length ≤ MAX_HOSTS) :
    collectReplies replies = dedupFirstSpec replies ∧
    (collectReplies replies).Nodup ∧
    ∀ s, s ∈ collectReplies replies ↔ s ∈ replies := by
  have h2 : (replies.foldl dedupAdd []).length ≤ MAX_HOSTS := h
  have heq : collectReplies replies = dedupFirstSpec replies :=
    foldl_addHost_eq_dedupAdd replies [] h2
  refine ⟨heq, ?_, ?_⟩
  · exact nodup_foldl_addHost replies [] List.nodup_nil
  · intro s
    rw [heq]
    have h3 := mem_foldl_dedupAdd replies [] s
    rw [show dedupFirstSpec replies = replies.foldl dedupAdd [] from rfl, h3]
    simp

/-- C6 witness: a window with a repeated identity reports each identity
once, in first-sighting order. -/
theorem c6_client_dedup_witness :
    collectReplies ["alpha", "beta", "alpha"] = dedupFirstSpec ["alpha", "beta", "alpha"] ∧
    (collectReplies ["alpha", "beta", "alpha"]).Nodup := by
  have h := c6_client_dedup_amended ["alpha", "beta", "alpha"] (by decide)
  exact ⟨h.1, h.2.1⟩

/-- C7 counterexample: the text-protocol client variant invoked with
`-hop 0` fails the invocation (prints the invalid-hop error and returns 1)
instead of coercing to 1 and proceeding. -/
theorem c7_hop_coercion_counterexample :
    parseHopsText ["-hop", "0"] = HopParse.invalidHop ∧
    parseHopsText ["-hop", "0"] ≠ HopParse.ok 1 true := by
  decide

/-- C7 (amended: the coercion holds in the select-loop client only): the
select-loop client coerces a hop value below 1 up to 1 with a warning,
defaults to 1 with no argument and passes valid values through, while the
text-protocol client variant fails the invocation on a value below 1. -/
theorem c7_hop_coercion_amended (s v : String)
    (hs : atoi s < 1) (hv : 1 ≤ atoi v) :
    parseHopsShow ["-hop", s] = HopParse.ok 1 true ∧
    parseHopsShow [] = HopParse.ok 1 false ∧
    parseHopsShow ["-hop", v] = HopParse.ok (atoi v) false ∧
    parseHopsText ["-hop", s] = HopParse.invalidHop := by
  refine ⟨?_, rfl, ?_, ?_⟩
  · simp [parseHopsShow, hs]
  · have hnv : ¬(atoi v < 1) := not_lt.mpr hv
    simp [parseHopsShow, hnv]
  · simp [parseHopsText, parseHopsTextAux, hs]

/-- C7 witness: "-hop 0" is coerced to 1 with a warning by the select-loop
client and rejected by the text-protocol variant; "-hop 2" passes. -/
theorem c7_hop_coercion_witness :
    parseHopsShow ["-hop", "0"] = HopParse.ok 1 true ∧
    parseHopsShow [] = HopParse.ok 1 false ∧
    parseHopsShow ["-hop", "2"] = HopParse.ok (atoi "2") false ∧
    parseHopsText ["-hop", "0"] = HopParse.invalidHop :=
  c7_hop_coercion_amended "0" "2" (by decide) (by decide)

/-- C9: if the deadline checks start at `start`, each loop iteration blocks
at most one time unit, and the clock eventually passes the window, then the
collection loop exits and its exit time is at most `start +
RESPONSE_WAIT_TIME + 1` — even on an all-timeout trace with no replies. -/
theorem c9_timeout_bound (hosts : List String) (start : Int)
    (trace : List (Int × LoopEvent))
    (hhead : ∀ p ∈ trace.head?, (p : Int × LoopEvent).1 = start)
    (hchain : trace.Chain' (fun a b => b.1 ≤ a.1 + 1))
    (hdl : ∃ p ∈ trace, start + RESPONSE_WAIT_TIME < p.1) :
    exitTimeLE (clientLoop start hosts trace) (start + RESPONSE_WAIT_TIME + 1) := by
  apply clientLoop_exits start trace hosts hchain hdl
  intro p hp
  rw [hhead p hp]
  have hW : RESPONSE_WAIT_TIME = 3 := rfl
  omega

/-- C9 witness: five one-second timeouts starting at time 0 exit at time 4
= 0 + RESPONSE_WAIT_TIME + 1, with no reply ever received. -/
theorem c9_timeout_bound_witness :
    exitTimeLE (clientLoop 0 []
        [((0 : Int), LoopEvent.timeout), (1, LoopEvent.timeout), (2, LoopEvent.timeout),
         (3, LoopEvent.timeout), (4, LoopEvent.timeout)])
      (0 + RESPONSE_WAIT_TIME + 1) := by
  apply c9_timeout_bound
  · intro p hp
    have hp2 : ((0 : Int), LoopEvent.timeout) = p := by
      simpa [Option.mem_def] using hp
    rw [← hp2]
  · simp [List.chain'_cons]
  · decide

/-- C10: the reported set never exceeds the 100-entry MAX_HOSTS bound; once
the table is full, a fresh identity is silently dropped and the collection
loop keeps running on the rest of its trace. -/
theorem c10_max_hosts_bound (replies : List String) (hosts : List String)
    (s : String) (start now : Int) (len : Nat) (rest : List (Int × LoopEvent))
    (hfull : hosts.length = MAX_HOSTS) (hnew : hosts.contains s = false)
    (hdl : now - start ≤ RESPONSE_WAIT_TIME) :
    (collectReplies replies).length ≤ MAX_HOSTS ∧
    addHost hosts s = hosts ∧
    clientLoop start hosts ((now, LoopEvent.data s len) :: rest) =
      clientLoop start hosts rest := by
  refine ⟨length_foldl_addHost_le replies [] (Nat.zero_le _),
    addHost_full hosts s hfull, ?_⟩
  have hng : ¬(now - start > RESPONSE_WAIT_TIME) := not_lt.mpr hdl
  by_cases hlen : len > 0
  · have heq : clientLoop start hosts ((now, LoopEvent.data s len) :: rest) =
        clientLoop start (addHost hosts s) rest := by simp [clientLoop, hng, hlen]
    rw [heq, addHost_full hosts s hfull]
  · simp [clientLoop, hng, hlen]

/-- C10 witness: with 100 distinct hosts already collected, a new identity
"zz" received before the deadline is dropped and the loop continues. -/
theorem c10_max_hosts_bound_witness :
    (collectReplies ["alpha"]).length ≤ MAX_HOSTS ∧
    addHost ((List.range 100).map (fun n => toString n)) "zz" =
      (List.range 100).map (fun n => toString n) ∧
    clientLoop 0 ((List.range 100).map (fun n => toString n))
        [((1 : Int), LoopEvent.data "zz" 4)] =
      clientLoop 0 ((List.range 100).map (fun n => toString n)) [] :=
  c10_max_hosts_bound ["alpha"] ((List.range 100).map (fun n => toString n))
    "zz" 0 1 4 [] (by decide) (by decide) (by decide)

end ScriptPI
